import Mathlib

/-!
# Verification of the bond valuation and risk-metrics engine

Shallow embedding of `cores/bond_calculations.py` (pricing, yield solving,
duration, convexity, accrued interest, cash-flow schedule).  Real arithmetic
is modelled by `ℚ`; Python's `int(x)` (truncation toward zero) is `truncQ`;
dates are modelled by their day number (`ℤ`), so `(d2 - d1).days` is plain
integer subtraction and `timedelta(days = k)` is addition of `k`.
Python operations that can raise `ZeroDivisionError` are additionally
modelled by an `Option`-valued variant (`calculate_bond_price?`).
-/

/-- Python's `int(x)` on a real number: truncation toward zero. -/
def truncQ (q : ℚ) : ℤ := if 0 ≤ q then ⌊q⌋ else ⌈q⌉

/-- Embedding of `calculate_bond_price` from `cores/bond_calculations.py`.
`frequency` is a natural number (the Python signature declares `int`). -/
def calculate_bond_price (face_value coupon_rate years_to_maturity yield_rate : ℚ)
    (frequency : ℕ) : ℚ :=
  if yield_rate = 0 then
    -- special case: zero yield, no discounting
    let coupon_payment := face_value * coupon_rate / frequency
    coupon_payment * years_to_maturity * frequency + face_value
  else
    let n_periods : ℤ := truncQ (years_to_maturity * frequency)
    let coupon_payment := face_value * coupon_rate / frequency
    let period_yield := yield_rate / frequency
    let pv_coupons :=
      if period_yield ≠ 0 then
        coupon_payment * (1 - (1 + period_yield) ^ (-n_periods)) / period_yield
      else
        coupon_payment * (n_periods : ℚ)
    let pv_face_value := face_value / (1 + period_yield) ^ n_periods
    pv_coupons + pv_face_value

/-- Division as Python performs it: `ZeroDivisionError` becomes `none`. -/
def qdiv? (a b : ℚ) : Option ℚ := if b = 0 then none else some (a / b)

/-- Python `x ** k` for a real base and integer exponent: `0.0 ** k` with
`k < 0` raises `ZeroDivisionError` (`none`); otherwise it is `x ^ k`
(`0.0 ** 0 = 1.0` in Python, matching `zpow`). -/
def qzpow? (a : ℚ) (k : ℤ) : Option ℚ := if a = 0 ∧ k < 0 then none else some (a ^ k)

/-- Error-tracking embedding of `calculate_bond_price`: returns `none`
exactly when the Python code would raise `ZeroDivisionError`. -/
def calculate_bond_price? (face_value coupon_rate years_to_maturity yield_rate : ℚ)
    (frequency : ℕ) : Option ℚ :=
  if yield_rate = 0 then do
    let coupon_payment ← qdiv? (face_value * coupon_rate) (frequency : ℚ)
    some (coupon_payment * years_to_maturity * frequency + face_value)
  else do
    let n_periods : ℤ := truncQ (years_to_maturity * frequency)
    let coupon_payment ← qdiv? (face_value * coupon_rate) (frequency : ℚ)
    let period_yield ← qdiv? yield_rate (frequency : ℚ)
    let pv_coupons ←
      if period_yield ≠ 0 then do
        let pw ← qzpow? (1 + period_yield) (-n_periods)
        qdiv? (coupon_payment * (1 - pw)) period_yield
      else
        some (coupon_payment * (n_periods : ℚ))
    let pw2 ← qzpow? (1 + period_yield) n_periods
    let pv_face_value ← qdiv? face_value pw2
    some (pv_coupons + pv_face_value)

/-- Embedding of `calculate_accrued_interest`; dates are day numbers. -/
def calculate_accrued_interest (face_value coupon_rate : ℚ)
    (last_coupon_date settlement_date : ℤ) (frequency : ℕ) : ℚ :=
  let days_since_last_coupon : ℚ := ((settlement_date - last_coupon_date : ℤ) : ℚ)
  let days_in_period : ℚ := 365 / frequency
  let coupon_payment := face_value * coupon_rate / frequency
  coupon_payment * (days_since_last_coupon / days_in_period)

/-- Embedding of `generate_cash_flow_schedule`; `start_date` is a day number
and each payment date is a day number (`timedelta(days=k)` is `+ k`). -/
def generate_cash_flow_schedule (face_value coupon_rate years_to_maturity : ℚ)
    (frequency : ℕ) (start_date : ℤ) : List (ℤ × ℚ) :=
  let n_periods := (truncQ (years_to_maturity * frequency)).toNat
  let coupon_payment := face_value * coupon_rate / frequency
  (List.range n_periods).map (fun j =>
    let i : ℕ := j + 1
    let payment_date := start_date + truncQ ((i : ℚ) * 365 / frequency)
    let amount := coupon_payment + (if i = n_periods then face_value else 0)
    (payment_date, amount))

/-- Python's `round` on a real number (round half to even), as used by the
spec's description of payment dates. -/
def pyRound (q : ℚ) : ℤ :=
  let f := ⌊q⌋
  if q - f < 1/2 then f
  else if q - f > 1/2 then f + 1
  else if f % 2 = 0 then f else f + 1

/-- On a nonnegative argument, Python truncation is the floor. -/
theorem truncQ_of_nonneg {q : ℚ} (h : 0 ≤ q) : truncQ q = ⌊q⌋ := if_pos h

/-- C1: `calculate_bond_price` computes exactly the spec's two-branch formula:
for `yield_rate = 0`, `(F*c/f) * (Y*f) + F` with the unfloored product `Y*f`;
otherwise, with `n = ⌊Y*f⌋` and `i = yield_rate / f`, the value
`(F*c/f) * (1 - (1+i)^(-n)) / i + F / (1+i)^n` (for nonnegative maturities,
where Python's `int` truncation agrees with the floor). -/
theorem bond_price_spec_formula (F c Y y : ℚ) (f : ℕ)
    (hf : 1 ≤ f) (hY : 0 ≤ Y) :
    (y = 0 → calculate_bond_price F c Y y f = (F * c / f) * (Y * f) + F) ∧
    (y ≠ 0 → calculate_bond_price F c Y y f =
      (F * c / f) * (1 - (1 + y / f) ^ (-(⌊Y * (f : ℚ)⌋))) / (y / f)
        + F / (1 + y / f) ^ (⌊Y * (f : ℚ)⌋)) := by
  have hYf : (0 : ℚ) ≤ Y * f := by positivity
  have hfq : (f : ℚ) ≠ 0 := by
    exact_mod_cast Nat.one_le_iff_ne_zero.mp hf
  constructor
  · intro hy
    simp only [calculate_bond_price, if_pos hy]
    ring
  · intro hy
    have hpy : y / f ≠ 0 := div_ne_zero hy hfq
    simp only [calculate_bond_price, if_neg hy, truncQ_of_nonneg hYf, if_pos hpy]

unseal Rat.mul Rat.inv Rat.add Rat.sub in
/-- Witness for C1 at `F = 1000`, `c = 1/20`, `Y = 5`, `y = 1/20`, `f = 2`. -/
theorem bond_price_spec_formula_witness :
    calculate_bond_price 1000 (1/20) 5 (1/20) 2 =
      (1000 * (1/20) / 2) * (1 - (1 + (1/20) / 2) ^ (-(⌊(5 : ℚ) * (2 : ℕ)⌋)))
        / ((1/20) / 2) + 1000 / (1 + (1/20) / 2) ^ (⌊(5 : ℚ) * (2 : ℕ)⌋) :=
  (bond_price_spec_formula 1000 (1/20) 5 (1/20) 2 (by decide) (by decide)).2 (by decide)

/-- C10: when `yield_rate ≠ 0`, `1 + yield_rate/frequency ≠ 0` and
`0 ≤ years_to_maturity * frequency < 1` (so the truncated period count is 0),
the price is exactly the face value, independent of coupon and yield. -/
theorem bond_price_zero_periods (F c Y y : ℚ) (f : ℕ)
    (hy : y ≠ 0) (_hpy : 1 + y / f ≠ 0)
    (h0 : 0 ≤ Y * f) (h1 : Y * (f : ℚ) < 1) :
    calculate_bond_price F c Y y f = F := by
  have hn : truncQ (Y * f) = 0 := by
    rw [truncQ_of_nonneg h0]
    exact Int.floor_eq_zero_iff.mpr ⟨h0, h1⟩
  simp only [calculate_bond_price, if_neg hy, hn]
  split <;> simp

unseal Rat.mul Rat.inv Rat.add Rat.sub in
/-- Witness for C10 at `F = 777`, `c = 3/10`, `Y = 2/5`, `y = 1/4`, `f = 2`. -/
theorem bond_price_zero_periods_witness :
    calculate_bond_price 777 (3/10) (2/5) (1/4) 2 = 777 :=
  bond_price_zero_periods 777 (3/10) (2/5) (1/4) 2 (by decide) (by decide)
    (by decide) (by decide)

/-- C9: accrued interest is exactly `(F*c/f) * (d / (365/f))` where `d` is the
signed day difference `settlement - last_coupon`; a negative `d` is not
rejected and (for a positive coupon) yields a negative accrual. -/
theorem accrued_interest_formula (F c : ℚ) (lastd settled : ℤ) (f : ℕ)
    (hf : 1 ≤ f) :
    calculate_accrued_interest F c lastd settled f =
      (F * c / f) * (((settled - lastd : ℤ) : ℚ) / (365 / f)) ∧
    (((settled - lastd : ℤ) : ℚ) < 0 → 0 < F * c →
      calculate_accrued_interest F c lastd settled f < 0) := by
  have hfq : (0 : ℚ) < (f : ℚ) := by exact_mod_cast hf
  refine ⟨rfl, fun hd hFc => ?_⟩
  show F * c / f * (((settled - lastd : ℤ) : ℚ) / (365 / f)) < 0
  have h1 : 0 < F * c / f := div_pos hFc hfq
  have h2 : (0 : ℚ) < 365 / f := by positivity
  exact mul_neg_of_pos_of_neg h1 (div_neg_of_neg_of_pos hd h2)

unseal Rat.mul Rat.inv Rat.add Rat.sub in
/-- Witness for C9: 45 days before the last coupon date gives a negative
accrual of `-540/73` for `F = 1000`, `c = 3/50`, `f = 2`. -/
theorem accrued_interest_formula_witness :
    calculate_accrued_interest 1000 (3/50) 0 (-45) 2 =
      (1000 * (3/50) / 2) * ((((-45 : ℤ) - 0 : ℤ) : ℚ) / (365 / 2)) ∧
    calculate_accrued_interest 1000 (3/50) 0 (-45) 2 < 0 := by
  have h := accrued_interest_formula 1000 (3/50) 0 (-45) 2 (by decide)
  exact ⟨h.1, h.2 (by decide) (by decide)⟩

/-- The forward finite-difference derivative used by `calculate_yield_to_maturity`
(step `delta = 0.0001`). -/
def newton_derivative (face_value coupon_rate years_to_maturity ytm : ℚ)
    (frequency : ℕ) : ℚ :=
  (calculate_bond_price face_value coupon_rate years_to_maturity (ytm + 1/10000) frequency
    - calculate_bond_price face_value coupon_rate years_to_maturity ytm frequency)
    / (1/10000)

/-- The Newton-Raphson loop of `calculate_yield_to_maturity`: the first
argument of the recursion is the remaining iteration budget, the second the
current `ytm` iterate.  Exhausted budget returns the current iterate. -/
def ytm_iter (price face_value coupon_rate years_to_maturity : ℚ) (frequency : ℕ)
    (tolerance : ℚ) : ℕ → ℚ → ℚ
  | 0, ytm => ytm
  | k + 1, ytm =>
    let calculated_price :=
      calculate_bond_price face_value coupon_rate years_to_maturity ytm frequency
    if |calculated_price - price| < tolerance then ytm
    else
      let derivative :=
        newton_derivative face_value coupon_rate years_to_maturity ytm frequency
      if derivative = 0 then ytm
      else
        ytm_iter price face_value coupon_rate years_to_maturity frequency tolerance k
          (ytm - (calculated_price - price) / derivative)

/-- Embedding of `calculate_yield_to_maturity`: Newton-Raphson from the
initial guess `ytm = coupon_rate`. -/
def calculate_yield_to_maturity (price face_value coupon_rate years_to_maturity : ℚ)
    (frequency : ℕ) (tolerance : ℚ) (max_iterations : ℕ) : ℚ :=
  ytm_iter price face_value coupon_rate years_to_maturity frequency tolerance
    max_iterations coupon_rate

/-- Embedding of `calculate_macaulay_duration`. -/
def calculate_macaulay_duration (face_value coupon_rate years_to_maturity yield_rate : ℚ)
    (frequency : ℕ) : ℚ :=
  let n_periods : ℤ := truncQ (years_to_maturity * frequency)
  let coupon_payment := face_value * coupon_rate / frequency
  let period_yield := yield_rate / frequency
  let price :=
    calculate_bond_price face_value coupon_rate years_to_maturity yield_rate frequency
  let weighted_cash_flows := ∑ j ∈ Finset.range n_periods.toNat,
    (let t : ℕ := j + 1
     let cash_flow := coupon_payment + (if (t : ℤ) = n_periods then face_value else 0)
     let pv_cash_flow := cash_flow / (1 + period_yield) ^ t
     ((t : ℚ) / frequency) * pv_cash_flow)
  weighted_cash_flows / price

/-- Embedding of `calculate_modified_duration`. -/
def calculate_modified_duration (face_value coupon_rate years_to_maturity yield_rate : ℚ)
    (frequency : ℕ) : ℚ :=
  calculate_macaulay_duration face_value coupon_rate years_to_maturity yield_rate frequency
    / (1 + yield_rate / frequency)

/-- Embedding of `calculate_convexity`. -/
def calculate_convexity (face_value coupon_rate years_to_maturity yield_rate : ℚ)
    (frequency : ℕ) : ℚ :=
  let n_periods : ℤ := truncQ (years_to_maturity * frequency)
  let coupon_payment := face_value * coupon_rate / frequency
  let period_yield := yield_rate / frequency
  let price :=
    calculate_bond_price face_value coupon_rate years_to_maturity yield_rate frequency
  let convexity_sum := ∑ j ∈ Finset.range n_periods.toNat,
    (let t : ℕ := j + 1
     let cash_flow := coupon_payment + (if (t : ℤ) = n_periods then face_value else 0)
     let pv_cash_flow := cash_flow / (1 + period_yield) ^ t
     ((t : ℚ) * (t + 1)) * pv_cash_flow)
  convexity_sum / (price * (1 + period_yield) ^ 2 * (frequency : ℚ) ^ 2)

unseal Rat.mul Rat.inv Rat.add Rat.sub in
/-- Counterexample to C6: at `yield_rate = -2` with `frequency = 2` the Python
code evaluates `0.0 ** (-10)` and raises `ZeroDivisionError`; the
error-tracking embedding returns `none` instead of a number. -/
theorem bond_price_error_counterexample :
    calculate_bond_price? 1000 (1/20) 5 (-2) 2 = none := by decide

/-- C6 (amended): for every positive integer frequency and every `yield_rate`
with `1 + yield_rate/frequency ≠ 0`, `calculate_bond_price` raises no error:
the error-tracking embedding returns `some` of the total embedding's value. -/
theorem bond_price_no_error (F c Y y : ℚ) (f : ℕ)
    (hf : 1 ≤ f) (hpy : 1 + y / (f : ℚ) ≠ 0) :
    calculate_bond_price? F c Y y f = some (calculate_bond_price F c Y y f) := by
  have hfq : (f : ℚ) ≠ 0 := by
    exact_mod_cast Nat.one_le_iff_ne_zero.mp hf
  by_cases hy : y = 0
  · simp only [calculate_bond_price?, calculate_bond_price, if_pos hy,
      qdiv?, if_neg hfq, Option.bind_eq_bind, Option.some_bind]
  · have hzp : (1 + y / (f : ℚ)) ^ (truncQ (Y * f)) ≠ 0 := zpow_ne_zero _ hpy
    have hcond : ¬((1 + y / (f : ℚ)) = 0 ∧ -(truncQ (Y * f)) < 0) := fun h => hpy h.1
    have hcond2 : ¬((1 + y / (f : ℚ)) = 0 ∧ truncQ (Y * f) < 0) := fun h => hpy h.1
    by_cases hpy0 : y / (f : ℚ) = 0
    · simp only [calculate_bond_price?, calculate_bond_price, if_neg hy, qdiv?, qzpow?,
        if_neg hfq, Option.bind_eq_bind, Option.some_bind,
        if_neg (not_not_intro hpy0), if_neg hcond2, if_neg hzp]
    · simp only [calculate_bond_price?, calculate_bond_price, if_neg hy, qdiv?, qzpow?,
        if_neg hfq, Option.bind_eq_bind, Option.some_bind,
        if_pos hpy0, if_neg hcond, if_neg hpy0, if_neg hcond2, if_neg hzp]

unseal Rat.mul Rat.inv Rat.add Rat.sub in
/-- Witness for C6 (amended) at `F = 1000`, `c = 1/20`, `Y = 5`, `y = -1/10`,
`f = 2`. -/
theorem bond_price_no_error_witness :
    calculate_bond_price? 1000 (1/20) 5 (-1/10) 2 =
      some (calculate_bond_price 1000 (1/20) 5 (-1/10) 2) :=
  bond_price_no_error 1000 (1/20) 5 (-1/10) 2 (by decide) (by decide)

/-- C7: non-convergence of the yield solver is silent.  With an exhausted
iteration budget the loop returns the current `ytm` iterate unchanged, and
when the finite-difference derivative is exactly zero at a non-converged
iterate it stops and returns that iterate; both outcomes are bare numbers,
produced by total functions, indistinguishable from a converged result. -/
theorem ytm_silent_nonconvergence (price F c Y tol ytm : ℚ) (f k : ℕ) :
    (ytm_iter price F c Y f tol 0 ytm = ytm) ∧
    (¬ |calculate_bond_price F c Y ytm f - price| < tol →
      newton_derivative F c Y ytm f = 0 →
      ytm_iter price F c Y f tol (k + 1) ytm = ytm) := by
  refine ⟨rfl, fun h1 h2 => ?_⟩
  simp only [ytm_iter, if_neg h1, if_pos h2]

unseal Rat.mul Rat.inv Rat.add Rat.sub in
/-- Witness for C7: a maturity-zero bond has constant price `1000`, so against
the target price `0` the derivative is zero and the never-converging solver
returns its iterate `1` unchanged, both on budget `0` and on budget `1`. -/
theorem ytm_silent_nonconvergence_witness :
    ytm_iter 0 1000 0 0 2 (1/10000) 0 1 = 1 ∧
    ytm_iter 0 1000 0 0 2 (1/10000) 1 1 = 1 :=
  ⟨(ytm_silent_nonconvergence 0 1000 0 0 (1/10000) 1 2 0).1,
   (ytm_silent_nonconvergence 0 1000 0 0 (1/10000) 1 2 0).2 (by decide) (by decide)⟩

/-- Geometric annuity identity: for a nonzero periodic yield `p` with
`1 + p ≠ 0`, the closed-form annuity factor `(1 - (1+p)^(-m))/p` equals the
sum of the discount factors of periods `1..m`. -/
theorem annuity_sum (p : ℚ) (hp : p ≠ 0) (hp1 : 1 + p ≠ 0) (m : ℕ) :
    (1 - ((1 + p) ^ m)⁻¹) / p = ∑ t ∈ Finset.range m, ((1 + p) ^ (t + 1))⁻¹ := by
  induction m with
  | zero => simp
  | succ m ih =>
    rw [Finset.sum_range_succ, ← ih]
    have h1 : (1 + p) ^ m ≠ 0 := pow_ne_zero _ hp1
    have h2 : (1 + p) ^ (m + 1) ≠ 0 := pow_ne_zero _ hp1
    field_simp
    ring

/-- For a nonzero yield, the closed-form price is the discounted sum of the
individual cash flows over the truncated period count. -/
theorem bond_price_as_sum (F c Y y : ℚ) (f : ℕ) (hf : 1 ≤ f) (hY : 0 ≤ Y)
    (hy : y ≠ 0) (hb : 1 + y / (f : ℚ) ≠ 0) :
    calculate_bond_price F c Y y f =
      (∑ t ∈ Finset.range (truncQ (Y * (f : ℚ))).toNat,
        (F * c / f) * ((1 + y / f) ^ (t + 1))⁻¹)
      + F * ((1 + y / f) ^ (truncQ (Y * (f : ℚ))).toNat)⁻¹ := by
  have hfq : (f : ℚ) ≠ 0 := by exact_mod_cast Nat.one_le_iff_ne_zero.mp hf
  have hp : y / (f : ℚ) ≠ 0 := div_ne_zero hy hfq
  have hYf : (0 : ℚ) ≤ Y * f := by positivity
  have hnn : (0 : ℤ) ≤ truncQ (Y * f) := by
    rw [truncQ_of_nonneg hYf]; exact Int.floor_nonneg.mpr hYf
  have hcast : truncQ (Y * (f : ℚ)) = ((truncQ (Y * (f : ℚ))).toNat : ℤ) :=
    (Int.toNat_of_nonneg hnn).symm
  simp only [calculate_bond_price, if_neg hy, if_pos hp]
  conv_lhs => rw [hcast, zpow_neg, zpow_natCast, mul_div_assoc,
    annuity_sum (y / f) hp hb, Finset.mul_sum]
  simp only [div_eq_mul_inv]

/-- A bond with positive face value, nonnegative coupon and a yield with
positive periodic growth factor has a positive price. -/
theorem bond_price_pos (F c Y y : ℚ) (f : ℕ) (hF : 0 < F) (hc : 0 ≤ c)
    (hY : 0 ≤ Y) (hf : 1 ≤ f) (hy : y ≠ 0) (hb : 0 < 1 + y / (f : ℚ)) :
    0 < calculate_bond_price F c Y y f := by
  rw [bond_price_as_sum F c Y y f hf hY hy (ne_of_gt hb)]
  have hsum : (0 : ℚ) ≤ ∑ t ∈ Finset.range (truncQ (Y * (f : ℚ))).toNat,
      (F * c / f) * ((1 + y / f) ^ (t + 1))⁻¹ := by
    refine Finset.sum_nonneg fun t _ => ?_
    have h1 : (0 : ℚ) ≤ F * c / f := by positivity
    have h2 : (0 : ℚ) < ((1 + y / (f : ℚ)) ^ (t + 1))⁻¹ := by positivity
    exact mul_nonneg h1 (le_of_lt h2)
  have hface : (0 : ℚ) < F * ((1 + y / (f : ℚ)) ^ (truncQ (Y * (f : ℚ))).toNat)⁻¹ := by
    positivity
  linarith

unseal Rat.mul Rat.inv Rat.add Rat.sub in
/-- Counterexample to C2: for the valid bond `F = 1000`, `c = 1/10`,
`Y = 19/20`, `f = 2` (one truncated period) the price at yield `-1/100` is
`210000/199 < 1095`, the price at the larger yield `0`, because the zero-yield
branch uses the unfloored product `Y * f = 1.9`: the price is not
non-increasing in the yield. -/
theorem bond_price_monotonicity_counterexample :
    (-1/100 : ℚ) < 0 ∧
    calculate_bond_price 1000 (1/10) (19/20) (-1/100) 2 <
      calculate_bond_price 1000 (1/10) (19/20) 0 2 :=
  ⟨by decide, by decide⟩

/-- C2 (amended): for valid bond terms, the price is monotonically
non-increasing in the yield across yields that are nonzero (so that both
prices are computed by the discounting branch) and have a positive periodic
growth factor; the zero-yield special case must be excluded because its
unfloored period count can break monotonicity for fractional `Y * f`. -/
theorem bond_price_yield_antitone (F c Y y₁ y₂ : ℚ) (f : ℕ)
    (hF : 0 < F) (hc : 0 ≤ c) (hY : 0 ≤ Y) (hf : 1 ≤ f)
    (h12 : y₁ < y₂) (h1 : y₁ ≠ 0) (h2 : y₂ ≠ 0) (hb : 0 < 1 + y₁ / (f : ℚ)) :
    calculate_bond_price F c Y y₂ f ≤ calculate_bond_price F c Y y₁ f := by
  have hfq : (0 : ℚ) < (f : ℚ) := by exact_mod_cast hf
  have hdiv : y₁ / (f : ℚ) < y₂ / f := by
    exact div_lt_div_of_pos_right h12 hfq
  have hb2 : 0 < 1 + y₂ / (f : ℚ) := by linarith
  rw [bond_price_as_sum F c Y y₁ f hf hY h1 (ne_of_gt hb),
    bond_price_as_sum F c Y y₂ f hf hY h2 (ne_of_gt hb2)]
  have hkey : ∀ k : ℕ, ((1 + y₂ / (f : ℚ)) ^ k)⁻¹ ≤ ((1 + y₁ / (f : ℚ)) ^ k)⁻¹ := by
    intro k
    have hpow : (1 + y₁ / (f : ℚ)) ^ k ≤ (1 + y₂ / f) ^ k :=
      pow_le_pow_left₀ (le_of_lt hb) (by linarith) k
    have := one_div_le_one_div_of_le (pow_pos hb k) hpow
    rwa [one_div, one_div] at this
  refine add_le_add (Finset.sum_le_sum fun t _ => ?_) ?_
  · exact mul_le_mul_of_nonneg_left (hkey (t + 1)) (by positivity)
  · exact mul_le_mul_of_nonneg_left (hkey _) (le_of_lt hF)

unseal Rat.mul Rat.inv Rat.add Rat.sub in
/-- Witness for C2 (amended): for `F = 1000`, `c = 1/20`, `Y = 5`, `f = 2` the
price at yield `1/20` is at most the price at the smaller yield `1/25`. -/
theorem bond_price_yield_antitone_witness :
    calculate_bond_price 1000 (1/20) 5 (1/20) 2 ≤
      calculate_bond_price 1000 (1/20) 5 (1/25) 2 :=
  bond_price_yield_antitone 1000 (1/20) 5 (1/25) (1/20) 2 (by decide) (by decide)
    (by decide) (by decide) (by decide) (by decide) (by decide) (by decide)

/-- C8: convexity is nonnegative for a conventional bond: positive face value,
positive coupon rate, positive yield, positive integer frequency, and at least
one floored coupon period. -/
theorem convexity_nonneg (F c Y y : ℚ) (f : ℕ)
    (hF : 0 < F) (hc : 0 < c) (hy : 0 < y) (hf : 1 ≤ f)
    (hn : 1 ≤ ⌊Y * (f : ℚ)⌋) :
    0 ≤ calculate_convexity F c Y y f := by
  have hfq : (0 : ℚ) < (f : ℚ) := by exact_mod_cast hf
  have hYf : (0 : ℚ) ≤ Y * f := by
    have h1 : (1 : ℚ) ≤ Y * f := by exact_mod_cast Int.le_floor.mp hn
    linarith
  have hY : 0 ≤ Y := by
    by_contra h
    push_neg at h
    have : Y * f < 0 := mul_neg_of_neg_of_pos h hfq
    linarith
  have hb : (0 : ℚ) < 1 + y / f := by positivity
  have hprice : 0 < calculate_bond_price F c Y y f :=
    bond_price_pos F c Y y f hF (le_of_lt hc) hY hf (ne_of_gt hy) hb
  simp only [calculate_convexity]
  apply div_nonneg
  · refine Finset.sum_nonneg fun j hj => ?_
    have hite : (0 : ℚ) ≤
        (if (((j + 1 : ℕ)) : ℤ) = truncQ (Y * (f : ℚ)) then F else 0) := by
      split
      · exact le_of_lt hF
      · exact le_rfl
    have hcf : (0 : ℚ) ≤ F * c / f + (if (((j + 1 : ℕ)) : ℤ) = truncQ (Y * (f : ℚ)) then F else 0) :=
      add_nonneg (by positivity) hite
    have hB : (0 : ℚ) < (1 + y / (f : ℚ)) ^ (j + 1) := pow_pos hb _
    exact mul_nonneg (by positivity) (div_nonneg hcf (le_of_lt hB))
  · have h2 : (0 : ℚ) < (1 + y / (f : ℚ)) ^ 2 := pow_pos hb 2
    have h3 : (0 : ℚ) < (f : ℚ) ^ 2 := by positivity
    exact le_of_lt (mul_pos (mul_pos hprice h2) h3)

unseal Rat.mul Rat.inv Rat.add Rat.sub in
/-- Witness for C8 at `F = 1000`, `c = 1/20`, `Y = 5`, `y = 1/20`, `f = 2`. -/
theorem convexity_nonneg_witness :
    0 ≤ calculate_convexity 1000 (1/20) 5 (1/20) 2 :=
  convexity_nonneg 1000 (1/20) 5 (1/20) 2 (by decide) (by decide) (by decide)
    (by decide) (by decide)

unseal Rat.mul Rat.inv Rat.add Rat.sub in
/-- Counterexample to C4: the zero-coupon bond `F = 1000`, `Y = 3/2`, `f = 1`,
`y = 1/10` satisfies the claim's hypotheses (one floored period, positive
growth factor), yet its Macaulay duration is `1`, not `years_to_maturity =
3/2`: the single cash flow sits at the floored period count, not at the
stated maturity. -/
theorem macaulay_zero_coupon_counterexample :
    (1 : ℤ) ≤ ⌊(3/2 : ℚ) * ((1 : ℕ) : ℚ)⌋ ∧
    (0 : ℚ) < 1 + (1/10) / ((1 : ℕ) : ℚ) ∧
    calculate_macaulay_duration 1000 0 (3/2) (1/10) 1 = 1 ∧
    calculate_macaulay_duration 1000 0 (3/2) (1/10) 1 ≠ 3/2 :=
  ⟨by decide, by decide, by decide, by decide⟩

/-- The weighted cash-flow sum of a zero-coupon bond collapses to its final
term. -/
theorem zero_coupon_weighted_sum (F B : ℚ) (f : ℕ) (n : ℤ) (hn : 0 ≤ n) :
    (∑ j ∈ Finset.range n.toNat,
      (((j + 1 : ℕ) : ℚ) / f) *
        ((F * 0 / f + if ((j + 1 : ℕ) : ℤ) = n then F else 0) / B ^ (j + 1)))
    = (n.toNat : ℚ) / f * (F / B ^ n.toNat) := by
  have hmz : ((n.toNat : ℤ)) = n := Int.toNat_of_nonneg hn
  rcases Nat.eq_zero_or_pos n.toNat with hc | hc
  · rw [hc]
    simp
  · obtain ⟨mm, hmm⟩ := Nat.exists_eq_succ_of_ne_zero (Nat.pos_iff_ne_zero.mp hc)
    rw [hmm]
    rw [Finset.sum_eq_single_of_mem mm (Finset.self_mem_range_succ mm)]
    · have hcond : ((mm + 1 : ℕ) : ℤ) = n := by omega
      rw [if_pos hcond]
      simp
    · intro j hj hne
      have hcond : ¬ ((j + 1 : ℕ) : ℤ) = n := by
        simp only [Finset.mem_range] at hj
        omega
      rw [if_neg hcond]
      simp

/-- C4 (amended): for a zero-coupon bond with positive face value,
nonnegative maturity, positive integer frequency and positive periodic growth
factor, the Macaulay duration is exactly `⌊Y * f⌋ / f` — the floored period
count in years.  It equals `years_to_maturity` only when `Y * f` is an
integer. -/
theorem macaulay_duration_zero_coupon (F Y y : ℚ) (f : ℕ)
    (hF : 0 < F) (hY : 0 ≤ Y) (hf : 1 ≤ f) (hb : 0 < 1 + y / (f : ℚ)) :
    calculate_macaulay_duration F 0 Y y f = ((⌊Y * (f : ℚ)⌋ : ℤ) : ℚ) / f := by
  have hfq : (f : ℚ) ≠ 0 := by exact_mod_cast Nat.one_le_iff_ne_zero.mp hf
  have hYf : (0 : ℚ) ≤ Y * f := by positivity
  have htr : truncQ (Y * (f : ℚ)) = ⌊Y * (f : ℚ)⌋ := truncQ_of_nonneg hYf
  have hnn : (0 : ℤ) ≤ ⌊Y * (f : ℚ)⌋ := Int.floor_nonneg.mpr hYf
  have hmz : (((⌊Y * (f : ℚ)⌋).toNat : ℤ)) = ⌊Y * (f : ℚ)⌋ := Int.toNat_of_nonneg hnn
  have hcast : (((⌊Y * (f : ℚ)⌋).toNat : ℚ)) = ((⌊Y * (f : ℚ)⌋ : ℤ) : ℚ) := by
    exact_mod_cast congrArg (fun z : ℤ => (z : ℚ)) hmz
  by_cases hy : y = 0
  · subst hy
    have hprice : calculate_bond_price F 0 Y 0 f = F := by
      simp [calculate_bond_price]
    simp only [calculate_macaulay_duration, htr, hprice,
      zero_coupon_weighted_sum F (1 + 0 / (f : ℚ)) f (⌊Y * (f : ℚ)⌋) hnn]
    rw [mul_div_assoc]
    have hBone : (1 : ℚ) + 0 / (f : ℚ) = 1 := by norm_num
    rw [hBone, one_pow, div_one, div_self (ne_of_gt hF), mul_one, hcast]
  · have hp : y / (f : ℚ) ≠ 0 := div_ne_zero hy hfq
    have hprice : calculate_bond_price F 0 Y y f =
        F / (1 + y / (f : ℚ)) ^ (⌊Y * (f : ℚ)⌋).toNat := by
      simp only [calculate_bond_price, if_neg hy, htr, if_pos hp]
      simp only [mul_zero, zero_div, zero_mul, zero_add]
      conv_lhs => rw [← hmz, zpow_natCast]
    simp only [calculate_macaulay_duration, htr, hprice,
      zero_coupon_weighted_sum F (1 + y / (f : ℚ)) f (⌊Y * (f : ℚ)⌋) hnn]
    have hpos : (0 : ℚ) < F / (1 + y / (f : ℚ)) ^ (⌊Y * (f : ℚ)⌋).toNat :=
      div_pos hF (pow_pos hb _)
    rw [mul_div_assoc, div_self (ne_of_gt hpos), mul_one, hcast]

unseal Rat.mul Rat.inv Rat.add Rat.sub in
/-- Witness for C4 (amended) at `F = 1000`, `Y = 5`, `y = 1/25`, `f = 1`:
the duration is `⌊5⌋ / 1`. -/
theorem macaulay_duration_zero_coupon_witness :
    calculate_macaulay_duration 1000 0 5 (1/25) 1 = ((⌊(5 : ℚ) * ((1 : ℕ) : ℚ)⌋ : ℤ) : ℚ) / 1 :=
  macaulay_duration_zero_coupon 1000 5 (1/25) 1 (by decide) (by decide) (by decide)
    (by decide)

unseal Rat.mul Rat.inv Rat.add Rat.sub in
/-- Counterexample to C5: for `F = 1000`, `c = 1/20`, `Y = 3/2`, `f = 2`,
`start = 0`, the third schedule entry falls on day `int(3*365/2) = 547`,
whereas the claimed `round(3*365/2)` is `548`: payment dates use truncation,
not rounding. -/
theorem cash_flow_schedule_round_counterexample :
    (generate_cash_flow_schedule 1000 (1/20) (3/2) 2 0)[2]? = some (547, 1025) ∧
    (0 : ℤ) + pyRound (((3 : ℕ) : ℚ) * 365 / ((2 : ℕ) : ℚ)) = 548 ∧
    ¬ (Option.map Prod.fst (generate_cash_flow_schedule 1000 (1/20) (3/2) 2 0)[2]? =
        some ((0 : ℤ) + pyRound (((3 : ℕ) : ℚ) * 365 / ((2 : ℕ) : ℚ)))) :=
  ⟨by decide, by decide, by decide⟩

/-- C5 (amended): the schedule has exactly `⌊Y*f⌋` entries (empty when that
is 0); entry `i` (1-indexed) has payment date `start + ⌊i*365/f⌋` days —
truncation, not rounding — and amount `F*c/f`, except the final entry whose
amount is `F*c/f + F`. -/
theorem cash_flow_schedule_spec (F c Y : ℚ) (f : ℕ) (start : ℤ)
    (hf : 1 ≤ f) (hY : 0 ≤ Y) :
    (generate_cash_flow_schedule F c Y f start).length = (⌊Y * (f : ℚ)⌋).toNat ∧
    ∀ j : ℕ, j < (⌊Y * (f : ℚ)⌋).toNat →
      (generate_cash_flow_schedule F c Y f start)[j]? =
        some (start + ⌊(((j + 1 : ℕ)) : ℚ) * 365 / f⌋,
          F * c / f + if j + 1 = (⌊Y * (f : ℚ)⌋).toNat then F else 0) := by
  have hYf : (0 : ℚ) ≤ Y * f := by positivity
  have htr : truncQ (Y * (f : ℚ)) = ⌊Y * (f : ℚ)⌋ := truncQ_of_nonneg hYf
  constructor
  · simp [generate_cash_flow_schedule, htr]
  · intro j hj
    have hdate : truncQ ((((j + 1 : ℕ)) : ℚ) * 365 / f) =
        ⌊(((j + 1 : ℕ)) : ℚ) * 365 / f⌋ :=
      truncQ_of_nonneg (by positivity)
    simp only [generate_cash_flow_schedule, htr, List.getElem?_map,
      List.getElem?_range hj, Option.map_some', hdate]

unseal Rat.mul Rat.inv Rat.add Rat.sub in
/-- Witness for C5 (amended): the `F = 1000`, `c = 1/20`, `Y = 3/2`, `f = 2`
schedule has three entries and its third entry is at day `⌊3*365/2⌋` with the
face value folded in. -/
theorem cash_flow_schedule_spec_witness :
    (generate_cash_flow_schedule 1000 (1/20) (3/2) 2 0).length =
      (⌊(3/2 : ℚ) * ((2 : ℕ) : ℚ)⌋).toNat ∧
    (generate_cash_flow_schedule 1000 (1/20) (3/2) 2 0)[2]? =
      some (0 + ⌊(((2 + 1 : ℕ)) : ℚ) * 365 / ((2 : ℕ) : ℚ)⌋,
        1000 * (1/20) / ((2 : ℕ) : ℚ) +
          if 2 + 1 = (⌊(3/2 : ℚ) * ((2 : ℕ) : ℚ)⌋).toNat then 1000 else 0) :=
  ⟨(cash_flow_schedule_spec 1000 (1/20) (3/2) 2 0 (by decide) (by decide)).1,
   (cash_flow_schedule_spec 1000 (1/20) (3/2) 2 0 (by decide) (by decide)).2 2
     (by decide)⟩

unseal Rat.mul Rat.inv Rat.add Rat.sub in
/-- Counterexample to C3: for the valid bond terms `F = 1/1000000`, `c = 1/2`,
`Y = 5`, `f = 2` and the yield `y = 1/100` in `(0, 1/2)`, the solver applied
to the exact price at `y` returns the initial guess `1/2` (the absolute
price tolerance `1/10000` is already met there because the face value is
tiny), which is nowhere near `y`: the universal round-trip property fails. -/
theorem ytm_round_trip_counterexample :
    calculate_yield_to_maturity
      (calculate_bond_price (1/1000000) (1/2) 5 (1/100) 2) (1/1000000) (1/2) 5 2
      (1/10000) 100 = 1/2 ∧
    ¬ (|(1/2 : ℚ) - 1/100| < 1/10) :=
  ⟨by decide, by decide⟩

unseal Rat.mul Rat.inv Rat.add Rat.sub in
/-- C3 (amended): the concrete scenario holds: for `price = 950`, `F = 1000`,
`c = 1/20`, `Y = 5`, `f = 2` with default tolerance `1/10000` and
`max_iterations = 100`, the solver converges — already with an iteration
budget of 4, far below 100 — to a yield above the 5% coupon (and below 7%)
whose recomputed price is within the tolerance of 950. -/
theorem ytm_concrete_scenario :
    (1/20 : ℚ) < calculate_yield_to_maturity 950 1000 (1/20) 5 2 (1/10000) 100 ∧
    calculate_yield_to_maturity 950 1000 (1/20) 5 2 (1/10000) 100 < 7/100 ∧
    |calculate_bond_price 1000 (1/20) 5
        (calculate_yield_to_maturity 950 1000 (1/20) 5 2 (1/10000) 100) 2 - 950|
      < 1/10000 ∧
    calculate_yield_to_maturity 950 1000 (1/20) 5 2 (1/10000) 4 =
      calculate_yield_to_maturity 950 1000 (1/20) 5 2 (1/10000) 100 :=
  ⟨by decide, by decide, by decide, by decide⟩
